import Mathlib

/-!
Verification of the Gluon core (secret detection/redaction engine, hook
pipeline, process supervisor, telemetry durability buffer) against its
natural-language specification.

JavaScript strings and Buffers are modelled as `List Char`; `Buffer | null`
return values are modelled as `Option (List Char)`; a thrown JS exception is
modelled as `Except.error`.  External primitives (the regex engine behind a
compiled pattern, `JSON.parse`) are modelled as function parameters giving
their observable behaviour; everything else is translated directly from the
source.
-/

namespace Gluon

/-- JS `s.slice(a, b)` for non-negative in-range style arguments:
the characters in positions `[a, b)`, clamped to the string. -/
def jsSlice (s : List Char) (a b : Nat) : List Char :=
  (s.take b).drop a

/-- JS `s.slice(a)`: characters from position `a` on. -/
def jsSliceFrom (s : List Char) (a : Nat) : List Char :=
  s.drop a

/-- JS `text.indexOf(pat)` (and `text.includes(pat)` via `Option.isSome`):
index of the first occurrence of `pat` as a contiguous substring. -/
def listIndexOf : List Char → List Char → Option Nat
  | l, pat =>
    if pat.isPrefixOf l then some 0
    else
      match l with
      | [] => none
      | _ :: t => (listIndexOf t pat).map (· + 1)

/-- Substring containment test (JS `a.includes(b)`). -/
def containsSub (l pat : List Char) : Bool :=
  (listIndexOf l pat).isSome

namespace Secrets

/-- Severity levels used by the secrets monitor. -/
inductive Severity
  | low | medium | high | critical
deriving DecidableEq, Repr

/-- The three protection modes from `config.secrets.mode`. -/
inductive SecretMode
  | detect | redact | block
deriving DecidableEq, Repr

/-- Secret detection result (`SecretMatch` in `monitors/secrets.ts`).
The source field `end` is called `endPos` here (`end` is a Lean keyword). -/
structure SecretMatch where
  patternName : String
  start : Nat
  endPos : Nat
  redactedSnippet : List Char
  matchedText : List Char
  severity : Severity
deriving DecidableEq, Repr

/-- A named pattern.  The compiled JS `RegExp` is an external engine; it is
modelled by its observable behaviour: `exec` yields the `(match.index,
match[0])` pairs that the source's `while ((match = pattern.exec(text)))`
loop produces (with `lastIndex` reset before the loop). -/
structure NamedPattern where
  name : String
  exec : List Char → List (Nat × List Char)
  severity : Severity

/-- State of a `SecretsMonitor` relevant to scanning and transforming. -/
structure SecretsMonitor where
  enabled : Bool
  mode : SecretMode
  redactText : List Char
  patterns : List NamedPattern
  trackedEnvValues : List (String × List Char)

/-- Escaping of newlines/carriage returns for single-line display:
`snippet.replace(/\n/g, '\\n').replace(/\r/g, '\\r')`.  The first pass
introduces no `\r`, so the two sequential passes equal one char-wise pass. -/
def escapeForDisplay (s : List Char) : List Char :=
  s.flatMap fun c =>
    if c = '\n' then ['\\', 'n']
    else if c = '\r' then ['\\', 'r']
    else [c]

/-- `SecretsMonitor.createRedactedSnippet`, translated from the source. -/
def createRedactedSnippet (text : List Char) (start len : Nat) : List Char :=
  let contextBefore := 20
  let contextAfter := 20
  let snippetStart := start - contextBefore   -- Nat subtraction = max(0, ·)
  let snippetEnd := min text.length (start + len + contextAfter)
  let snippet := jsSlice text snippetStart snippetEnd
  let relativeStart := start - snippetStart
  let beforeMatch := jsSlice snippet 0 relativeStart
  let afterMatch := jsSliceFrom snippet (relativeStart + len)
  let redacted := List.replicate (min len 16) '*'
  let snippet2 := beforeMatch ++ redacted ++ afterMatch
  let snippet3 := if 0 < snippetStart then '.' :: '.' :: '.' :: snippet2 else snippet2
  let snippet4 := if snippetEnd < text.length then snippet3 ++ ['.', '.', '.'] else snippet3
  escapeForDisplay snippet4

/-- `SecretsMonitor.scan`, translated from the source.  For every pattern the
`exec` loop yields `(index, matchedText)` pairs, each becoming a
`SecretMatch`; then every tracked env value found by substring containment
(`text.includes(value)` / `text.indexOf(value)`) becomes a critical match.
The source additionally pushes a telemetry event per match and bumps
`exposureCount`; those side effects do not influence the returned list and
are modelled by the telemetry component separately. -/
def scan (m : SecretsMonitor) (text : List Char) : List SecretMatch :=
  if !m.enabled then []
  else
    let patMatches := m.patterns.flatMap fun p =>
      (p.exec text).map fun im =>
        { patternName := p.name
          start := im.1
          endPos := im.1 + im.2.length
          redactedSnippet := createRedactedSnippet text im.1 im.2.length
          matchedText := im.2
          severity := p.severity }
    let envMatches := m.trackedEnvValues.filterMap fun ev =>
      match listIndexOf text ev.2 with
      | none => none
      | some index => some
        { patternName := "ENV:" ++ ev.1
          start := index
          endPos := index + ev.2.length
          redactedSnippet := createRedactedSnippet text index ev.2.length
          matchedText := ev.2
          severity := Severity.critical }
    patMatches ++ envMatches

/-- Stable insertion (descending by `start`) — one step of the model of
JS `sort((a, b) => b.start - a.start)`, a stable descending sort. -/
def insertDesc (x : SecretMatch) : List SecretMatch → List SecretMatch
  | [] => [x]
  | y :: ys => if x.start ≤ y.start then y :: insertDesc x ys else x :: y :: ys

/-- Model of `[...matches].sort((a, b) => b.start - a.start)`: a stable sort
by descending start position. -/
def sortByStartDesc (ms : List SecretMatch) : List SecretMatch :=
  ms.foldl (fun acc x => insertDesc x acc) []

/-- `SecretsMonitor.redactMatches`, translated from the source: sort matches
by start position descending, then splice the redaction text over each span
(`text.slice(0, start) ++ redactText ++ text.slice(end)`). -/
def redactMatches (redactText : List Char) (data : List Char)
    (mts : List SecretMatch) : List Char :=
  (sortByStartDesc mts).foldl
    (fun text mt => jsSlice text 0 mt.start ++ redactText ++ jsSliceFrom text mt.endPos)
    data

/-- `SecretsMonitor.transform`, translated from the source.  `Buffer | null`
becomes `Option (List Char)`: `none` suppresses the chunk. -/
def transform (m : SecretsMonitor) (data : List Char) : Option (List Char) :=
  if !m.enabled then some data
  else
    let mts := scan m data
    if mts.isEmpty then some data
    else
      match m.mode with
      | SecretMode.detect => some data
      | SecretMode.redact => some (redactMatches m.redactText data mts)
      | SecretMode.block => none

/-- Specification-side splice: the expected output of redaction over the
ascending spans `spans` of `text` starting at cursor `pos` — the intervening
segments of `text`, in order, interleaved with one copy of `R` per span.
`spliceSpec R text 0 spans` therefore contains `R` exactly `spans.length`
times (once per match) and preserves the order of all intervening text. -/
def spliceSpec (R text : List Char) : Nat → List (Nat × Nat) → List Char
  | pos, [] => text.drop pos
  | pos, se :: rest => (text.drop pos).take (se.1 - pos) ++ R ++ spliceSpec R text se.2 rest

/-- Ascending, pairwise non-overlapping, positive-length spans starting at or
after the lower bound `lb` (decidable version used in hypotheses). -/
def chainOrdered : Nat → List SecretMatch → Bool
  | _, [] => true
  | lb, mt :: rest => lb ≤ mt.start && mt.start < mt.endPos && chainOrdered mt.endPos rest

/-- Non-overlapping matches in ARBITRARY list order (the order `scan`
produces them in — pattern-list order, then tracked env values — need not
follow text order): every match has a positive span and any two matches in
the list occupy disjoint spans.  Decidable version used in hypotheses. -/
def nonOverlapping : List SecretMatch → Bool
  | [] => true
  | mt :: rest =>
    mt.start < mt.endPos &&
    rest.all (fun b => mt.endPos ≤ b.start || b.endPos ≤ mt.start) &&
    nonOverlapping rest

end Secrets

namespace Hooks

/-- Result of one `StreamTransformHook` call (`Buffer | null | undefined`
in the source, plus the possibility of throwing):
`replace` = return a Buffer, `suppress` = return `null`,
`pass` = return `undefined`, `raise` = throw. -/
inductive TransformOut
  | replace (c : List Char)
  | suppress
  | pass
  | raise
deriving DecidableEq, Repr

/-- A stream transform hook, modelled by its observable behaviour on the
chunk argument. -/
def StreamTransformHook : Type := List Char → TransformOut

/-- Result of one observer (`StreamHook`) call: returns normally or throws. -/
inductive ObserverOut
  | done
  | raise
deriving DecidableEq, Repr

/-- A stream observer hook, modelled by its observable behaviour. -/
def StreamHook : Type := List Char → ObserverOut

/-- Result of `HookManager.applyTransforms`: the final outcome (`Except.error`
models the uncaught exception propagating out of the method) together with
the invocation trace — the chunk value each invoked hook received, in
invocation order. -/
structure TransformApply where
  result : Except Unit (Option (List Char))
  calls : List (List Char)
deriving Repr

/-- The loop body of `HookManager.applyTransforms`: `result` starts as the
chunk; `null` breaks out; a hook exception propagates (there is no
try/catch in the source); `undefined` keeps the current value. -/
def applyTransformsLoop : List StreamTransformHook → Option (List Char) →
    List (List Char) → TransformApply
  | [], r, tr => { result := Except.ok r, calls := tr }
  | _ :: _, none, tr => { result := Except.ok none, calls := tr }  -- break: already suppressed
  | h :: hs, some c, tr =>
    match h c with
    | TransformOut.raise => { result := Except.error (), calls := tr ++ [c] }
    | TransformOut.replace d => applyTransformsLoop hs (some d) (tr ++ [c])
    | TransformOut.suppress => applyTransformsLoop hs none (tr ++ [c])
    | TransformOut.pass => applyTransformsLoop hs (some c) (tr ++ [c])

/-- `HookManager.applyTransforms`.  `ctxSet` is whether `createContext` has
been called (`this.context !== null`); without a context the chunk is
returned unchanged and no hook runs. -/
def applyTransforms (ctxSet : Bool) (hooks : List StreamTransformHook)
    (chunk : List Char) : TransformApply :=
  if !ctxSet then { result := Except.ok (some chunk), calls := [] }
  else applyTransformsLoop hooks (some chunk) []

/-- `HookManager.executeStream` (observers): each hook is called with the
chunk; an exception propagates immediately (no try/catch in the source).
The `Except.ok` payload is the invocation trace (the chunk each invoked
observer received). -/
def executeStreamLoop : List StreamHook → List Char → List (List Char) →
    Except Unit (List (List Char))
  | [], _, tr => Except.ok tr
  | h :: hs, c, tr =>
    match h c with
    | ObserverOut.raise => Except.error ()
    | ObserverOut.done => executeStreamLoop hs c (tr ++ [c])

/-- `HookManager.executeStream` with the context-null guard. -/
def executeStream (ctxSet : Bool) (hooks : List StreamHook) (chunk : List Char) :
    Except Unit (List (List Char)) :=
  if !ctxSet then Except.ok []
  else executeStreamLoop hooks chunk []

/-- The per-chunk step of the `Transform` stream built by
`HookManager.createStreamTransform`: first apply transform hooks, then run
observer hooks on the ORIGINAL chunk, then forward the transformed chunk
(or nothing when suppressed).  An exception from either phase propagates
out of the stream callback, so nothing is forwarded (`Except.error`).
Returns (forwarded output, observer trace). -/
def streamStep (ctxSet : Bool) (thooks : List StreamTransformHook)
    (ohooks : List StreamHook) (chunk : List Char) :
    Except Unit (Option (List Char) × List (List Char)) :=
  match (applyTransforms ctxSet thooks chunk).result with
  | Except.error _ => Except.error ()
  | Except.ok transformedChunk =>
    match executeStream ctxSet ohooks chunk with
    | Except.error _ => Except.error ()
    | Except.ok trace => Except.ok (transformedChunk, trace)

/-- One lifecycle hook's behaviour at its milestone: completes or throws. -/
inductive LifecycleOut
  | done
  | raise
deriving DecidableEq, Repr

/-- `HookManager.executeLifecycle`: hooks are awaited strictly in order; a
hook's exception propagates immediately (no try/catch in the method).  The
`Except.ok` payload is how many hooks ran to completion; without a context
the method returns at once and runs no hook. -/
def executeLifecycleLoop : List LifecycleOut → Nat → Except Unit Nat
  | [], n => Except.ok n
  | LifecycleOut.done :: hs, n => executeLifecycleLoop hs (n + 1)
  | LifecycleOut.raise :: _, _ => Except.error ()

/-- `HookManager.executeLifecycle` with the context-null guard. -/
def executeLifecycle (ctxSet : Bool) (hooks : List LifecycleOut) : Except Unit Nat :=
  if !ctxSet then Except.ok 0
  else executeLifecycleLoop hooks 0

end Hooks

namespace Runner

open Hooks

/-- The four lifecycle milestones. -/
inductive Milestone
  | beforeStart | afterStart | beforeStop | afterStop
deriving DecidableEq, Repr

/-- Observable actions of one `run(...)` call, in order of occurrence. -/
inductive RunAction
  | firedMilestone (m : Milestone)
  | loggedHookError (m : Milestone)   -- the `.catch(console.error)` on afterStart
  | spawned
  | installedHandlers                 -- setupSignalForwarding()
  | removedHandlers                   -- cleanupSignalHandlers()
  | recordedStop                      -- telemetry.recordProcessStop(...)
  | resolvedRun
  | rejectedRun
deriving DecidableEq, Repr

/-- Hook registrations of the run's `HookManager`, by milestone. -/
structure RunHooks where
  beforeStart : List LifecycleOut
  afterStart : List LifecycleOut
  beforeStop : List LifecycleOut
  afterStop : List LifecycleOut

/-- What the spawned child does: the spawn fails (`error` event, e.g. command
not found), or the child eventually closes with `(code, signal)` as delivered
to the `close` handler. -/
inductive SpawnOutcome
  | fail
  | closes (code : Option Int) (signal : Option String)

/-- How the promise returned by `run` ends up. -/
inductive RunOutcome
  | abortedBeforeSpawn                       -- beforeStart hook threw; child never spawned
  | rejectedSpawnFailure                     -- reject(new Error("Failed to start ..."))
  | resolved (exitCode : Int) (signal : Option String)
  | neverSettles                             -- unhandled rejection inside an async
                                             -- child-event handler: neither resolve nor
                                             -- reject is ever called
deriving DecidableEq, Repr

/-- The `signalCodes` record in the close handler. -/
def signalCodes : List (String × Int) :=
  [("SIGINT", 130), ("SIGTERM", 143), ("SIGHUP", 129)]

/-- Exit-code computation of the close handler: killed by a signal maps via
`signalCodes` with default 128, otherwise the child's own code or 0. -/
def computeExitCode (code : Option Int) (signal : Option String) : Int :=
  match signal with
  | some s => ((signalCodes.lookup s).getD 128)
  | none => code.getD 0

/-- The control flow of `run(command, args, options)` in `runner.ts`,
modelled over the hook behaviours and the child's fate.  The context is
created first, so every `executeLifecycle` call runs with `ctxSet = true`.
`afterStart` failures are caught by `.catch` and only logged; `beforeStop` /
`afterStop` run inside `async` child-event handlers with no catch, so their
exceptions become unhandled rejections and the run promise never settles. -/
def runModel (hooks : RunHooks) (child : SpawnOutcome) : RunOutcome × List RunAction :=
  match executeLifecycle true hooks.beforeStart with
  | Except.error _ => (RunOutcome.abortedBeforeSpawn, [RunAction.firedMilestone Milestone.beforeStart])
  | Except.ok _ =>
    let afterStartActs :=
      match executeLifecycle true hooks.afterStart with
      | Except.error _ => [RunAction.firedMilestone Milestone.afterStart,
                           RunAction.loggedHookError Milestone.afterStart]
      | Except.ok _ => [RunAction.firedMilestone Milestone.afterStart]
    let pre := [RunAction.firedMilestone Milestone.beforeStart, RunAction.spawned,
                RunAction.installedHandlers] ++ afterStartActs
    match child with
    | SpawnOutcome.fail =>
      -- child 'error' handler: cleanup, record telemetry, await afterStop, reject
      match executeLifecycle true hooks.afterStop with
      | Except.error _ =>
        (RunOutcome.neverSettles,
         pre ++ [RunAction.removedHandlers, RunAction.firedMilestone Milestone.afterStop])
      | Except.ok _ =>
        (RunOutcome.rejectedSpawnFailure,
         pre ++ [RunAction.removedHandlers, RunAction.firedMilestone Milestone.afterStop,
                 RunAction.rejectedRun])
    | SpawnOutcome.closes code signal =>
      -- child 'close' handler: cleanup, await beforeStop, compute exit code,
      -- record stop, await afterStop, resolve
      match executeLifecycle true hooks.beforeStop with
      | Except.error _ =>
        (RunOutcome.neverSettles,
         pre ++ [RunAction.removedHandlers, RunAction.firedMilestone Milestone.beforeStop])
      | Except.ok _ =>
        match executeLifecycle true hooks.afterStop with
        | Except.error _ =>
          (RunOutcome.neverSettles,
           pre ++ [RunAction.removedHandlers, RunAction.firedMilestone Milestone.beforeStop,
                   RunAction.recordedStop, RunAction.firedMilestone Milestone.afterStop])
        | Except.ok _ =>
          (RunOutcome.resolved (computeExitCode code signal) signal,
           pre ++ [RunAction.removedHandlers, RunAction.firedMilestone Milestone.beforeStop,
                   RunAction.recordedStop, RunAction.firedMilestone Milestone.afterStop,
                   RunAction.resolvedRun])

end Runner

namespace Telemetry

/-- A telemetry event; only the fields relevant to buffering, durability and
sync state are modelled (`metadata`/`pid`/`timestamp` carry no logic). -/
structure TEvent where
  id : String
  type : String
  message : String
  severity : String
  sessionId : String
  synced : Bool
deriving DecidableEq, Repr

/-- Collector state: the in-memory buffer and the durable local log
(the newline-delimited JSON file, as the sequence of events it holds). -/
structure TelemetryState where
  buffer : List TEvent
  log : List TEvent
deriving DecidableEq, Repr

/-- `TelemetryCollector.asyncFlush`, translated from the source.
`cloudLinked` is whether `cloudProjectId` is set (the in-flush `syncToCloud`
is a stub that always succeeds, after which events are marked synced);
`during` are the events recorded by concurrent `record` calls while the
flush is suspended on its awaits (they land in the cleared live buffer);
`appendOk` is whether the durable append (mkdir + appendFile) succeeds.
On failure the snapshot is merged back in front of the live buffer and the
error is rethrown (`Except.error`). -/
def asyncFlush (cloudLinked : Bool) (st : TelemetryState) (during : List TEvent)
    (appendOk : Bool) : Except Unit Nat × TelemetryState :=
  if st.buffer.isEmpty then (Except.ok 0, st)  -- early return, before any await
  else
    let events := st.buffer
    let events := if cloudLinked then events.map (fun e => { e with synced := true }) else events
    -- `this.buffer = []`, then concurrent records accumulate across the awaits
    let live := during
    if appendOk then
      (Except.ok events.length, { buffer := live, log := st.log ++ events })
    else
      (Except.error (), { buffer := events ++ live, log := st.log })

/-- `record`: stamps and appends one event to the in-memory buffer (the
auto-flush-on-threshold trigger is a separate `flush` call). -/
def record (st : TelemetryState) (e : TEvent) : TelemetryState :=
  { st with buffer := st.buffer ++ [e] }

/-- JS whitespace test for the characters `String.prototype.trim` strips
(the ones relevant to this log format). -/
def isJsWhitespace (c : Char) : Bool :=
  c = ' ' || c = '\n' || c = '\r' || c = '\t'

/-- JS `content.trim()`. -/
def jsTrim (s : List Char) : List Char :=
  ((s.dropWhile isJsWhitespace).reverse.dropWhile isJsWhitespace).reverse

/-- `lines.map(line => JSON.parse(line))`: JS `map` applies `parse` in order
and the first exception aborts the whole `map` (nothing is returned). -/
def parseAllLines {α : Type} (parse : List Char → Option α) :
    List (List Char) → Option (List α)
  | [] => some []
  | l :: t =>
    match parse l with
    | none => none
    | some e => (parseAllLines parse t).map (e :: ·)

/-- `content.trim().split('\n').filter(Boolean)`: the non-empty lines of the
trimmed file contents. -/
def logLines (content : List Char) : List (List Char) :=
  ((jsTrim content).splitOn '\n').filter (· ≠ [])

/-- `TelemetryCollector.readEvents(limit?)`, translated from the source.
`parse` models `JSON.parse` on one line (`none` = throws); `content` is the
file's contents (the caught-`ENOENT` missing-file branch returns `[]` and is
not modelled — the file is given).  `limit = some 0` is falsy in JS
(`if (limit)`), so it returns all events, and `events.slice(-limit)` for a
positive limit keeps the last `limit` events. -/
def readEvents {α : Type} (parse : List Char → Option α) (content : List Char)
    (limit : Option Nat) : Except Unit (List α) :=
  match parseAllLines parse (logLines content) with
  | none => Except.error ()
  | some events =>
    Except.ok
      (match limit with
       | some l => if l ≠ 0 then events.drop (events.length - l) else events
       | none => events)

end Telemetry

namespace Secrets

/-- Concrete monitor used by witnesses: redact mode, two tracked env values,
no regex patterns. -/
def wRedactMonitor : SecretsMonitor :=
  { enabled := true
    mode := SecretMode.redact
    redactText := "[X]".data
    patterns := []
    trackedEnvValues := [("A", "SECRETAA".data), ("B", "SECRETBB".data)] }

/-- Concrete chunk for the redaction witness.  The tracked values occur in
the OPPOSITE order of the tracked-value list (`SECRETBB` at offset 1,
`SECRETAA` at offset 11), so `scan` yields its two non-overlapping matches
in descending start order and the descending re-sort is exercised. -/
def wRedactData : List Char := "xSECRETBByySECRETAAz".data

/-- Concrete monitor exhibiting the snippet-containment counterexample:
detect mode, tracking env value `ABCDEFGH`. -/
def cexEnvMonitor : SecretsMonitor :=
  { enabled := true
    mode := SecretMode.detect
    redactText := "[REDACTED]".data
    patterns := []
    trackedEnvValues := [("MY_SECRET", "ABCDEFGH".data)] }

/-- A chunk in which the tracked value occurs twice back to back: the
second occurrence lies inside the 20-character context retained after
the (first) matched span. -/
def cexEnvText : List Char := "ABCDEFGHABCDEFGH".data

/-- The single match `scan cexEnvMonitor cexEnvText` produces: span `[0, 8)`,
snippet `********ABCDEFGH` — which contains the raw matched text. -/
def wSnipMatch : SecretMatch :=
  { patternName := "ENV:MY_SECRET"
    start := 0
    endPos := 8
    redactedSnippet := "********ABCDEFGH".data
    matchedText := "ABCDEFGH".data
    severity := Severity.critical }

end Secrets

namespace Hooks

/-- Witness transform hook: appends `!`. -/
def wReplaceHook : StreamTransformHook := fun c => TransformOut.replace (c ++ "!".data)

/-- Witness transform hook: passes through unchanged (`undefined`). -/
def wPassHook : StreamTransformHook := fun _ => TransformOut.pass

/-- Witness transform hook: suppresses every chunk (`null`). -/
def wSuppressHook : StreamTransformHook := fun _ => TransformOut.suppress

/-- Counterexample transform hook: always throws. -/
def wRaiseHook : StreamTransformHook := fun _ => TransformOut.raise

/-- Witness observer hook: returns normally. -/
def wObserver : StreamHook := fun _ => ObserverOut.done

/-- Counterexample observer hook: always throws. -/
def wObserverRaise : StreamHook := fun _ => ObserverOut.raise

/-- Witness chunk. -/
def wChunk : List Char := "hello".data

end Hooks

namespace Runner

open Hooks

/-- Witness hook sets: all hooks succeed. -/
def wOkHooks : RunHooks :=
  { beforeStart := [LifecycleOut.done]
    afterStart := [LifecycleOut.done]
    beforeStop := [LifecycleOut.done]
    afterStop := [LifecycleOut.done] }

/-- A hook set whose only failure is a throwing before-stop hook. -/
def cexBeforeStopHooks : RunHooks :=
  { beforeStart := [LifecycleOut.done]
    afterStart := [LifecycleOut.done]
    beforeStop := [LifecycleOut.raise]
    afterStop := [LifecycleOut.done] }

/-- A hook set whose only failure is a throwing after-start hook. -/
def wAfterStartFailHooks : RunHooks :=
  { beforeStart := [LifecycleOut.done]
    afterStart := [LifecycleOut.raise]
    beforeStop := [LifecycleOut.done]
    afterStop := [LifecycleOut.done] }

/-- A hook set whose only failure is a throwing before-start hook. -/
def wBeforeStartFailHooks : RunHooks :=
  { beforeStart := [LifecycleOut.raise]
    afterStart := []
    beforeStop := []
    afterStop := [] }

/-- `hooks.all(h => h completes)`: no hook at this milestone throws. -/
def lifecycleOk (hs : List LifecycleOut) : Bool :=
  hs.all fun h => match h with
    | LifecycleOut.done => true
    | LifecycleOut.raise => false

end Runner

namespace Telemetry

/-- Witness events. -/
def wEvent (n : Nat) : TEvent :=
  { id := toString n, type := "custom", message := "m", severity := "info",
    sessionId := "ses_w", synced := false }

/-- Witness pre-flush collector state. -/
def wState : TelemetryState :=
  { buffer := [wEvent 1, wEvent 2], log := [wEvent 0] }

/-- Witness model of `JSON.parse` for a one-digit-per-line log. -/
def wParse : List Char → Option Nat := fun l =>
  match l with
  | [c] => if c.isDigit then some (c.toNat - '0'.toNat) else none
  | _ => none

end Telemetry

end Gluon

/-!
Proofs: helper lemmas followed by the claim theorems, their witnesses and
counterexamples, component by component.
-/

namespace Gluon
namespace Secrets

lemma chainOrdered_le {lb : Nat} {ms : List SecretMatch}
    (h : chainOrdered lb ms = true) : ∀ mt ∈ ms, lb ≤ mt.start := by
  induction ms generalizing lb with
  | nil => intro mt hmt; cases hmt
  | cons x rest ih =>
    simp only [chainOrdered, Bool.and_eq_true, decide_eq_true_eq] at h
    obtain ⟨⟨h1, h2⟩, h3⟩ := h
    intro mt hmt
    rcases List.mem_cons.mp hmt with rfl | hmt
    · exact h1
    · exact le_trans (le_trans h1 (le_of_lt h2)) (ih h3 mt hmt)

lemma chainOrdered_pairwise {lb : Nat} {ms : List SecretMatch}
    (h : chainOrdered lb ms = true) :
    ms.Pairwise (fun a b => a.start < b.start) := by
  induction ms generalizing lb with
  | nil => exact List.Pairwise.nil
  | cons x rest ih =>
    simp only [chainOrdered, Bool.and_eq_true, decide_eq_true_eq] at h
    obtain ⟨⟨_, h2⟩, h3⟩ := h
    refine List.Pairwise.cons (fun mt hmt => ?_) (ih h3)
    exact lt_of_lt_of_le h2 (chainOrdered_le h3 mt hmt)

lemma insertDesc_of_lt {x : SecretMatch} {acc : List SecretMatch}
    (h : ∀ y ∈ acc, y.start < x.start) : insertDesc x acc = x :: acc := by
  cases acc with
  | nil => rfl
  | cons y ys =>
    have : ¬ x.start ≤ y.start := not_le_of_lt (h y (List.mem_cons_self _ _))
    simp [insertDesc, this]

lemma foldl_insertDesc_of_ascending :
    ∀ (ms acc : List SecretMatch),
      ms.Pairwise (fun a b => a.start < b.start) →
      (∀ y ∈ acc, ∀ x ∈ ms, y.start < x.start) →
      ms.foldl (fun a x => insertDesc x a) acc = ms.reverse ++ acc := by
  intro ms
  induction ms with
  | nil => intro acc _ _; rfl
  | cons x rest ih =>
    intro acc hpair hacc
    have hpair' := (List.pairwise_cons.mp hpair).2
    have hx : ∀ y ∈ acc, y.start < x.start :=
      fun y hy => hacc y hy x (List.mem_cons_self _ _)
    have hstep : insertDesc x acc = x :: acc := insertDesc_of_lt hx
    have hacc' : ∀ y ∈ x :: acc, ∀ z ∈ rest, y.start < z.start := by
      intro y hy z hz
      rcases List.mem_cons.mp hy with rfl | hy
      · exact (List.pairwise_cons.mp hpair).1 z hz
      · exact lt_trans (hx y hy) ((List.pairwise_cons.mp hpair).1 z hz)
    calc (x :: rest).foldl (fun a y => insertDesc y a) acc
        = rest.foldl (fun a y => insertDesc y a) (x :: acc) := by
          simp [List.foldl_cons, hstep]
      _ = rest.reverse ++ (x :: acc) := ih (x :: acc) hpair' hacc'
      _ = (x :: rest).reverse ++ acc := by simp

lemma sortByStartDesc_of_ascending {ms : List SecretMatch}
    (h : ms.Pairwise (fun a b => a.start < b.start)) :
    sortByStartDesc ms = ms.reverse := by
  have := foldl_insertDesc_of_ascending ms [] h (by intro y hy; cases hy)
  simpa [sortByStartDesc] using this

/-- The core splice-correctness lemma: folding the single-span splice from
the right over an ascending, non-overlapping, in-bounds span list produces
exactly the interleaving described by `spliceSpec`. -/
lemma foldr_splice_eq_spliceSpec (R text : List Char) :
    ∀ (ms : List SecretMatch) (pos : Nat),
      chainOrdered pos ms = true →
      (∀ mt ∈ ms, mt.endPos ≤ text.length) →
      ms.foldr (fun mt t => jsSlice t 0 mt.start ++ R ++ jsSliceFrom t mt.endPos) text
        = text.take pos ++ spliceSpec R text pos (ms.map fun mt => (mt.start, mt.endPos)) := by
  intro ms
  induction ms with
  | nil =>
    intro pos _ _
    simp [spliceSpec]
  | cons mt rest ih =>
    intro pos hord hbd
    simp only [chainOrdered, Bool.and_eq_true, decide_eq_true_eq] at hord
    obtain ⟨⟨hps, hse⟩, hrest⟩ := hord
    have hbd_mt : mt.endPos ≤ text.length := hbd mt (List.mem_cons_self _ _)
    have hbd' : ∀ x ∈ rest, x.endPos ≤ text.length :=
      fun x hx => hbd x (List.mem_cons_of_mem _ hx)
    have hT := ih mt.endPos hrest hbd'
    have hlen : (text.take mt.endPos).length = mt.endPos := by
      simpa using Nat.min_eq_left hbd_mt
    have hse' : mt.start ≤ mt.endPos := le_of_lt hse
    set B := spliceSpec R text mt.endPos (rest.map fun m => (m.start, m.endPos)) with hB
    have h1 : jsSlice (text.take mt.endPos ++ B) 0 mt.start = text.take mt.start := by
      rw [jsSlice, List.drop_zero, List.take_append_eq_append_take, hlen,
        Nat.sub_eq_zero_of_le hse', List.take_zero, List.append_nil,
        List.take_take, Nat.min_eq_left hse']
    have h2 : jsSliceFrom (text.take mt.endPos ++ B) mt.endPos = B := by
      rw [jsSliceFrom, List.drop_append_eq_append_drop,
        List.drop_eq_nil_of_le (le_of_eq hlen), hlen, Nat.sub_self,
        List.drop_zero, List.nil_append]
    have h3 : text.take pos ++ (text.drop pos).take (mt.start - pos) = text.take mt.start := by
      rw [← List.take_add]
      congr 1
      omega
    calc (mt :: rest).foldr
          (fun m t => jsSlice t 0 m.start ++ R ++ jsSliceFrom t m.endPos) text
        = jsSlice (text.take mt.endPos ++ B) 0 mt.start ++ R ++
            jsSliceFrom (text.take mt.endPos ++ B) mt.endPos := by
          simp only [List.foldr_cons, hT]
      _ = text.take mt.start ++ R ++ B := by rw [h1, h2]
      _ = text.take pos ++ spliceSpec R text pos ((mt :: rest).map fun m => (m.start, m.endPos)) := by
          simp only [List.map_cons, spliceSpec, ← hB, ← List.append_assoc, h3]

/-- Redaction correctness: for ascending, non-overlapping, in-bounds matches
the descending-offset splice loop of `redactMatches` yields exactly the
`spliceSpec` interleaving. -/
lemma redactMatches_eq_spliceSpec (R data : List Char) (ms : List SecretMatch)
    (hord : chainOrdered 0 ms = true)
    (hbd : ∀ mt ∈ ms, mt.endPos ≤ data.length) :
    redactMatches R data ms = spliceSpec R data 0 (ms.map fun mt => (mt.start, mt.endPos)) := by
  rw [redactMatches, sortByStartDesc_of_ascending (chainOrdered_pairwise hord),
    List.foldl_reverse]
  simpa using foldr_splice_eq_spliceSpec R data ms 0 hord hbd

lemma nonOverlapping_pos {ms : List SecretMatch}
    (h : nonOverlapping ms = true) : ∀ mt ∈ ms, mt.start < mt.endPos := by
  induction ms with
  | nil => intro mt hmt; cases hmt
  | cons x rest ih =>
    simp only [nonOverlapping, Bool.and_eq_true, decide_eq_true_eq] at h
    intro mt hmt
    rcases List.mem_cons.mp hmt with rfl | hmt
    · exact h.1.1
    · exact ih h.2 mt hmt

lemma nonOverlapping_pairwise {ms : List SecretMatch}
    (h : nonOverlapping ms = true) :
    ms.Pairwise (fun a b => a.endPos ≤ b.start ∨ b.endPos ≤ a.start) := by
  induction ms with
  | nil => exact List.Pairwise.nil
  | cons x rest ih =>
    simp only [nonOverlapping, Bool.and_eq_true, List.all_eq_true,
      Bool.or_eq_true, decide_eq_true_eq] at h
    exact List.Pairwise.cons (fun b hb => h.1.2 b hb) (ih h.2)

lemma insertDesc_perm (x : SecretMatch) (l : List SecretMatch) :
    (insertDesc x l).Perm (x :: l) := by
  induction l with
  | nil => simp [insertDesc]
  | cons y ys ih =>
    by_cases hc : x.start ≤ y.start
    · simp only [insertDesc, if_pos hc]
      exact (ih.cons y).trans (List.Perm.swap x y ys)
    · simp [insertDesc, if_neg hc]

lemma foldl_insertDesc_perm :
    ∀ (ms acc : List SecretMatch),
      (ms.foldl (fun a x => insertDesc x a) acc).Perm (ms ++ acc) := by
  intro ms
  induction ms with
  | nil => intro acc; simp
  | cons x t ih =>
    intro acc
    have h1 : ((x :: t).foldl (fun a y => insertDesc y a) acc)
        = t.foldl (fun a y => insertDesc y a) (insertDesc x acc) := rfl
    rw [h1]
    refine (ih (insertDesc x acc)).trans ?_
    refine (List.Perm.append_left t (insertDesc_perm x acc)).trans ?_
    exact List.perm_middle

/-- The modelled JS sort returns a permutation of its input. -/
lemma sortByStartDesc_perm (ms : List SecretMatch) :
    (sortByStartDesc ms).Perm ms := by
  have h := foldl_insertDesc_perm ms []
  rw [List.append_nil] at h
  exact h

lemma insertDesc_sorted {x : SecretMatch} {l : List SecretMatch}
    (hl : l.Pairwise (fun a b => b.start ≤ a.start)) :
    (insertDesc x l).Pairwise (fun a b => b.start ≤ a.start) := by
  induction l with
  | nil => simp [insertDesc]
  | cons y ys ih =>
    rcases List.pairwise_cons.mp hl with ⟨hy, hys⟩
    by_cases hc : x.start ≤ y.start
    · simp only [insertDesc, if_pos hc]
      refine List.Pairwise.cons (fun z hz => ?_) (ih hys)
      rcases (insertDesc_perm x ys).mem_iff.mp hz with hz2
      rcases List.mem_cons.mp hz2 with rfl | hz3
      · exact hc
      · exact hy z hz3
    · simp only [insertDesc, if_neg hc]
      refine List.Pairwise.cons (fun z hz => ?_) hl
      rcases List.mem_cons.mp hz with rfl | hz2
      · exact le_of_lt (lt_of_not_le hc)
      · exact le_trans (hy z hz2) (le_of_lt (lt_of_not_le hc))

lemma foldl_insertDesc_sorted :
    ∀ (ms acc : List SecretMatch),
      acc.Pairwise (fun a b => b.start ≤ a.start) →
      (ms.foldl (fun a x => insertDesc x a) acc).Pairwise
        (fun a b => b.start ≤ a.start) := by
  intro ms
  induction ms with
  | nil => intro acc hacc; exact hacc
  | cons x t ih => intro acc hacc; exact ih (insertDesc x acc) (insertDesc_sorted hacc)

/-- The modelled JS sort is sorted descending by start offset. -/
lemma sortByStartDesc_sorted (ms : List SecretMatch) :
    (sortByStartDesc ms).Pairwise (fun a b => b.start ≤ a.start) :=
  foldl_insertDesc_sorted ms [] List.Pairwise.nil

lemma chainOrdered_of_pairwise :
    ∀ (lb : Nat) (ms : List SecretMatch),
      (∀ mt ∈ ms, mt.start < mt.endPos) →
      (∀ mt ∈ ms, lb ≤ mt.start) →
      ms.Pairwise (fun a b => a.endPos ≤ b.start) →
      chainOrdered lb ms = true := by
  intro lb ms
  induction ms generalizing lb with
  | nil => intro _ _ _; rfl
  | cons x rest ih =>
    intro hpos hlb hpair
    rcases List.pairwise_cons.mp hpair with ⟨hx, hrest⟩
    simp only [chainOrdered, Bool.and_eq_true, decide_eq_true_eq]
    exact ⟨⟨hlb x (List.mem_cons_self _ _), hpos x (List.mem_cons_self _ _)⟩,
      ih x.endPos (fun mt hmt => hpos mt (List.mem_cons_of_mem _ hmt))
        (fun mt hmt => hx mt hmt) hrest⟩

/-- Redaction correctness for matches in ARBITRARY list order: if the
matches are pairwise non-overlapping and in bounds, the descending sort
followed by the splice loop produces exactly the `spliceSpec` interleaving
over the spans sorted ascending by start offset. -/
lemma redactMatches_eq_of_nonOverlapping (R data : List Char)
    (ms : List SecretMatch) (hnov : nonOverlapping ms = true)
    (hbd : ∀ mt ∈ ms, mt.endPos ≤ data.length) :
    redactMatches R data ms =
      spliceSpec R data 0
        (((sortByStartDesc ms).reverse).map fun mt => (mt.start, mt.endPos)) := by
  have hperm := sortByStartDesc_perm ms
  have hmemA : ∀ {z : SecretMatch}, z ∈ (sortByStartDesc ms).reverse → z ∈ ms :=
    fun hz => hperm.mem_iff.mp (List.mem_reverse.mp hz)
  have hpos := nonOverlapping_pos hnov
  have hdisjS : (sortByStartDesc ms).Pairwise
      (fun a b => a.endPos ≤ b.start ∨ b.endPos ≤ a.start) :=
    (hperm.pairwise_iff fun hab => Or.symm hab).mpr (nonOverlapping_pairwise hnov)
  have hascle : ((sortByStartDesc ms).reverse).Pairwise
      (fun a b => a.start ≤ b.start) :=
    List.pairwise_reverse.mpr (sortByStartDesc_sorted ms)
  have hdisjA : ((sortByStartDesc ms).reverse).Pairwise
      (fun a b => a.endPos ≤ b.start ∨ b.endPos ≤ a.start) :=
    List.pairwise_reverse.mpr (hdisjS.imp fun hab => hab.symm)
  have hchainP : ((sortByStartDesc ms).reverse).Pairwise
      (fun a b => a.endPos ≤ b.start) := by
    refine (hascle.and hdisjA).imp_of_mem ?_
    intro a b ha hb hab
    rcases hab.2 with h | h
    · exact h
    · have hbpos := hpos b (hmemA hb)
      have hle := hab.1
      omega
  have hchain : chainOrdered 0 ((sortByStartDesc ms).reverse) = true :=
    chainOrdered_of_pairwise 0 _ (fun mt hmt => hpos mt (hmemA hmt))
      (fun mt _ => Nat.zero_le _) hchainP
  have hbdA : ∀ mt ∈ (sortByStartDesc ms).reverse, mt.endPos ≤ data.length :=
    fun mt hmt => hbd mt (hmemA hmt)
  have hfold := foldr_splice_eq_spliceSpec R data ((sortByStartDesc ms).reverse) 0 hchain hbdA
  calc redactMatches R data ms
      = (((sortByStartDesc ms).reverse).reverse).foldl
          (fun text mt => jsSlice text 0 mt.start ++ R ++ jsSliceFrom text mt.endPos)
          data := by
        rw [redactMatches, List.reverse_reverse]
    _ = ((sortByStartDesc ms).reverse).foldr
          (fun mt t => jsSlice t 0 mt.start ++ R ++ jsSliceFrom t mt.endPos) data :=
        List.foldl_reverse _ _ _
    _ = spliceSpec R data 0
          (((sortByStartDesc ms).reverse).map fun mt => (mt.start, mt.endPos)) := by
        simpa using hfold

/-- C1: protection-mode invariant of the secrets engine's `transform`.
In detect mode the output is byte-identical to the input chunk; in block
mode a chunk with at least one match is fully suppressed (`none`) and a
chunk with zero matches passes through unchanged; in redact mode, for N
pairwise non-overlapping in-bounds matches — in whatever order `scan`
produced them — the output is exactly the `spliceSpec` interleaving over
the spans sorted ascending by start offset: the intervening text segments
in their original order with one copy of the configured redaction text per
match, i.e. the redaction text is spliced in exactly N times (the code
applies the splices in descending start-offset order). -/
theorem secrets_transform_protection_invariant
    (m : SecretsMonitor) (data : List Char) (hen : m.enabled = true) :
    (m.mode = SecretMode.detect → transform m data = some data) ∧
    (m.mode = SecretMode.block →
      (scan m data = [] → transform m data = some data) ∧
      (scan m data ≠ [] → transform m data = none)) ∧
    (m.mode = SecretMode.redact →
      nonOverlapping (scan m data) = true →
      (∀ mt ∈ scan m data, mt.endPos ≤ data.length) →
      transform m data =
        some (spliceSpec m.redactText data 0
          (((sortByStartDesc (scan m data)).reverse).map
            fun mt => (mt.start, mt.endPos)))) := by
  refine ⟨?_, ?_, ?_⟩
  · intro hm
    by_cases hsc : (scan m data).isEmpty
    · simp [transform, hen, hsc]
    · simp [transform, hen, hsc, hm]
  · intro hm
    constructor
    · intro hsc
      have : (scan m data).isEmpty = true := by simp [hsc]
      simp [transform, hen, this]
    · intro hsc
      have : (scan m data).isEmpty = false := by
        simpa [List.isEmpty_iff] using hsc
      simp [transform, hen, this, hm]
  · intro hm hnov hbd
    by_cases hsc : (scan m data).isEmpty
    · have hnil : scan m data = [] := List.isEmpty_iff.mp hsc
      simp [transform, hen, hsc, hnil, spliceSpec, sortByStartDesc]
    · have hred := redactMatches_eq_of_nonOverlapping m.redactText data (scan m data) hnov hbd
      simp [transform, hen, hsc, hm, hred]

/-- Witness for C1: a concrete redact-mode monitor and chunk whose two
non-overlapping matches come out of `scan` in DESCENDING start order; the
output equals the splice interleaving over the ascending-sorted spans. -/
theorem secrets_transform_protection_invariant_witness :
    wRedactMonitor.enabled = true ∧
    wRedactMonitor.mode = SecretMode.redact ∧
    nonOverlapping (scan wRedactMonitor wRedactData) = true ∧
    (∀ mt ∈ scan wRedactMonitor wRedactData, mt.endPos ≤ wRedactData.length) ∧
    transform wRedactMonitor wRedactData =
      some (spliceSpec wRedactMonitor.redactText wRedactData 0
        (((sortByStartDesc (scan wRedactMonitor wRedactData)).reverse).map
          fun mt => (mt.start, mt.endPos))) :=
  ⟨rfl, rfl, by decide, by decide,
    (secrets_transform_protection_invariant wRedactMonitor wRedactData rfl).2.2
      rfl (by decide) (by decide)⟩

lemma take_min_length {α : Type} (l : List α) (k : Nat) :
    l.take (min l.length k) = l.take k := by
  rcases le_total l.length k with h | h
  · rw [Nat.min_eq_left h, List.take_length, List.take_of_length_le h]
  · rw [Nat.min_eq_right h]

/-- Every match `scan` produces carries the snippet computed from its own
span, and its span length is its matched text's length. -/
lemma scan_match_fields (m : SecretsMonitor) (text : List Char)
    (mt : SecretMatch) (hmem : mt ∈ scan m text) :
    mt.redactedSnippet = createRedactedSnippet text mt.start mt.matchedText.length ∧
    mt.endPos = mt.start + mt.matchedText.length := by
  by_cases hen : m.enabled
  · rw [scan] at hmem
    simp only [hen, Bool.not_true] at hmem
    rw [if_neg (by simp)] at hmem
    rcases List.mem_append.mp hmem with hpat | henv
    · rcases List.mem_flatMap.mp hpat with ⟨p, _, hp⟩
      rcases List.mem_map.mp hp with ⟨im, _, rfl⟩
      exact ⟨rfl, rfl⟩
    · rcases List.mem_filterMap.mp henv with ⟨ev, _, hev⟩
      rcases h : listIndexOf text ev.2 with _ | index
      · rw [h] at hev; cases hev
      · rw [h] at hev
        cases hev
        exact ⟨rfl, rfl⟩
  · rw [scan] at hmem
    simp [hen] at hmem

/-- Structural characterization of `createRedactedSnippet`: the snippet is
the newline-escaped concatenation of (optional leading ellipsis) ++ (at most
20 characters of context before the match) ++ (asterisks, capped at 16) ++
(at most 20 characters of context after the match) ++ (optional trailing
ellipsis). -/
lemma createRedactedSnippet_structure (text : List Char) (start len : Nat)
    (h : start + len ≤ text.length) :
    createRedactedSnippet text start len =
      escapeForDisplay (
        (if 20 < start then ['.', '.', '.'] else []) ++
        (text.drop (start - 20)).take (min start 20) ++
        List.replicate (min len 16) '*' ++
        (text.drop (start + len)).take 20 ++
        (if start + len + 20 < text.length then ['.', '.', '.'] else [])) := by
  have hbefore :
      ((text.take (min text.length (start + len + 20))).drop (start - 20)).take
          (start - (start - 20))
        = (text.drop (start - 20)).take (min start 20) := by
    rw [List.drop_take, List.take_take, Nat.min_eq_left (by omega),
      (by omega : start - (start - 20) = min start 20)]
  have hafter :
      (((text.take (min text.length (start + len + 20))).drop (start - 20)).drop
          (start - (start - 20) + len))
        = (text.drop (start + len)).take 20 := by
    rw [List.drop_drop, (by omega : start - 20 + (start - (start - 20) + len) = start + len),
      List.drop_take]
    have hmin : min text.length (start + len + 20) - (start + len)
        = min (text.drop (start + len)).length 20 := by
      rw [List.length_drop]; omega
    rw [hmin, take_min_length]
  simp only [createRedactedSnippet, jsSlice, jsSliceFrom, List.drop_zero]
  rw [hbefore, hafter]
  by_cases h1 : 20 < start
  · have h1' : 0 < start - 20 := by omega
    by_cases h2 : start + len + 20 < text.length
    · have h2' : min text.length (start + len + 20) < text.length := by omega
      simp only [if_pos h1, if_pos h1', if_pos h2, if_pos h2']
      simp
    · have h2' : ¬ min text.length (start + len + 20) < text.length := by omega
      simp only [if_pos h1, if_pos h1', if_neg h2, if_neg h2']
      simp
  · have h1' : ¬ 0 < start - 20 := by omega
    by_cases h2 : start + len + 20 < text.length
    · have h2' : min text.length (start + len + 20) < text.length := by omega
      simp only [if_neg h1, if_neg h1', if_pos h2, if_pos h2']
      simp
    · have h2' : ¬ min text.length (start + len + 20) < text.length := by omega
      simp only [if_neg h1, if_neg h1', if_neg h2, if_neg h2']
      simp

/-- C2 counterexample: for the tracked env value `ABCDEFGH` and the chunk
`ABCDEFGHABCDEFGH`, the single `SecretMatch` that `scan` produces has the
redacted snippet `********ABCDEFGH`, which CONTAINS the raw matched text
`ABCDEFGH` (the second occurrence sits inside the retained context).  The
claim that the snippet never contains the raw matched text is therefore
false. -/
theorem snippet_contains_raw_match_cex :
    ((scan cexEnvMonitor cexEnvText).map fun mt =>
      containsSub mt.redactedSnippet mt.matchedText) = [true] := by decide

/-- C2 (amended): every `SecretMatch` snippet replaces the matched span by
asterisks (capped at 16) with at most 20 characters of retained context on
each side, ellipsis markers exactly when truncated, and newlines/carriage
returns escaped; the raw matched occurrence itself is thus removed, but the
snippet can still contain the raw matched text when the same text occurs
again inside the retained context (see the counterexample). -/
theorem snippet_bounded_redaction (m : SecretsMonitor) (text : List Char)
    (mt : SecretMatch) (hmem : mt ∈ scan m text) (hbd : mt.endPos ≤ text.length) :
    mt.redactedSnippet =
      escapeForDisplay (
        (if 20 < mt.start then ['.', '.', '.'] else []) ++
        (text.drop (mt.start - 20)).take (min mt.start 20) ++
        List.replicate (min mt.matchedText.length 16) '*' ++
        (text.drop (mt.start + mt.matchedText.length)).take 20 ++
        (if mt.start + mt.matchedText.length + 20 < text.length then ['.', '.', '.'] else [])) ∧
    ((text.drop (mt.start - 20)).take (min mt.start 20)).length ≤ 20 ∧
    ((text.drop (mt.start + mt.matchedText.length)).take 20).length ≤ 20 := by
  obtain ⟨hsnip, hspan⟩ := scan_match_fields m text mt hmem
  have hlen : mt.start + mt.matchedText.length ≤ text.length := by omega
  refine ⟨?_, ?_, ?_⟩
  · rw [hsnip, createRedactedSnippet_structure text mt.start mt.matchedText.length hlen]
  · simp [List.length_take]
  · simp [List.length_take]

/-- Witness for C2 (amended), at the counterexample input: the match is in
the scan output, in bounds, and its snippet has the characterized shape. -/
theorem snippet_bounded_redaction_witness :
    wSnipMatch ∈ scan cexEnvMonitor cexEnvText ∧
    wSnipMatch.endPos ≤ cexEnvText.length ∧
    wSnipMatch.redactedSnippet =
      escapeForDisplay (
        (if 20 < wSnipMatch.start then ['.', '.', '.'] else []) ++
        (cexEnvText.drop (wSnipMatch.start - 20)).take (min wSnipMatch.start 20) ++
        List.replicate (min wSnipMatch.matchedText.length 16) '*' ++
        (cexEnvText.drop (wSnipMatch.start + wSnipMatch.matchedText.length)).take 20 ++
        (if wSnipMatch.start + wSnipMatch.matchedText.length + 20 < cexEnvText.length
          then ['.', '.', '.'] else [])) :=
  ⟨by decide, by decide,
    (snippet_bounded_redaction cexEnvMonitor cexEnvText wSnipMatch (by decide) (by decide)).1⟩

end Secrets

namespace Hooks

/-- The trace accumulator of `applyTransformsLoop` only prepends: running
with accumulated trace `tr` equals running with `[]` and prefixing `tr`. -/
lemma applyTransformsLoop_accum (hs : List StreamTransformHook) :
    ∀ (r : Option (List Char)) (tr : List (List Char)),
      applyTransformsLoop hs r tr =
        { result := (applyTransformsLoop hs r []).result,
          calls := tr ++ (applyTransformsLoop hs r []).calls } := by
  induction hs with
  | nil => intro r tr; simp [applyTransformsLoop]
  | cons h t ih =>
    intro r tr
    cases r with
    | none => simp [applyTransformsLoop]
    | some c =>
      cases hh : h c with
      | raise => simp [applyTransformsLoop, hh]
      | replace d =>
        simp only [applyTransformsLoop, hh]
        rw [ih (some d) (tr ++ [c]), ih (some d) ([] ++ [c])]
        simp
      | suppress =>
        simp only [applyTransformsLoop, hh]
        rw [ih none (tr ++ [c]), ih none ([] ++ [c])]
        simp
      | pass =>
        simp only [applyTransformsLoop, hh]
        rw [ih (some c) (tr ++ [c]), ih (some c) ([] ++ [c])]
        simp

/-- Once the running value is `null` the loop stops: no further hook is
invoked and nothing is forwarded. -/
lemma applyTransformsLoop_none (hs : List StreamTransformHook)
    (tr : List (List Char)) :
    applyTransformsLoop hs none tr = { result := Except.ok none, calls := tr } := by
  cases hs <;> rfl

/-- Splitting the hook chain: if the prefix finishes normally with value
`r2`, the whole chain continues with the suffix from `r2`. -/
lemma applyTransformsLoop_append_ok (pre : List StreamTransformHook) :
    ∀ (post : List StreamTransformHook) (r : Option (List Char))
      (tr : List (List Char)) (r2 : Option (List Char)),
      (applyTransformsLoop pre r tr).result = Except.ok r2 →
      applyTransformsLoop (pre ++ post) r tr =
        applyTransformsLoop post r2 (applyTransformsLoop pre r tr).calls := by
  induction pre with
  | nil =>
    intro post r tr r2 hres
    simp only [applyTransformsLoop] at hres
    cases hres
    simp [applyTransformsLoop]
  | cons h t ih =>
    intro post r tr r2 hres
    cases r with
    | none =>
      simp only [applyTransformsLoop] at hres
      cases hres
      simp [List.cons_append, applyTransformsLoop_none]
    | some c =>
      cases hh : h c with
      | raise => simp [applyTransformsLoop, hh] at hres
      | replace d =>
        simp only [applyTransformsLoop, hh] at hres ⊢
        exact ih post (some d) (tr ++ [c]) r2 hres
      | suppress =>
        simp only [applyTransformsLoop, hh] at hres ⊢
        exact ih post none (tr ++ [c]) r2 hres
      | pass =>
        simp only [applyTransformsLoop, hh] at hres ⊢
        exact ih post (some c) (tr ++ [c]) r2 hres

/-- A normally-completing observer run passes the SAME chunk to every hook:
the trace is one entry per registered hook, each the original chunk. -/
lemma executeStreamLoop_trace (hooks : List StreamHook) (c : List Char) :
    ∀ (tr tr2 : List (List Char)),
      executeStreamLoop hooks c tr = Except.ok tr2 →
      tr2 = tr ++ List.replicate hooks.length c := by
  induction hooks with
  | nil =>
    intro tr tr2 h
    simp only [executeStreamLoop] at h
    cases h
    simp
  | cons h t ih =>
    intro tr tr2 hres
    cases hh : h c with
    | raise => simp [executeStreamLoop, hh] at hres
    | done =>
      simp only [executeStreamLoop, hh] at hres
      have := ih (tr ++ [c]) tr2 hres
      simp only [this, List.length_cons, List.replicate_succ]
      simp

/-- If any observer hook throws on this chunk, `executeStream` propagates
the exception. -/
lemma executeStreamLoop_raise (hooks : List StreamHook) (c : List Char) :
    ∀ (tr : List (List Char)), (∃ hk ∈ hooks, hk c = ObserverOut.raise) →
      executeStreamLoop hooks c tr = Except.error () := by
  induction hooks with
  | nil => intro tr h; rcases h with ⟨hk, hmem, _⟩; cases hmem
  | cons h t ih =>
    intro tr hex
    cases hh : h c with
    | raise => simp [executeStreamLoop, hh]
    | done =>
      simp only [executeStreamLoop, hh]
      rcases hex with ⟨hk, hmem, hraise⟩
      rcases List.mem_cons.mp hmem with rfl | hmem
      · rw [hh] at hraise; cases hraise
      · exact ih (tr ++ [c]) ⟨hk, hmem, hraise⟩

/-- C5: the dual feed.  With a context set: (i) the per-chunk stream step
forwards exactly what the transform chain produced while every observer
hook is invoked with the original, untransformed chunk (the observer trace
is one entry per hook, each the original chunk, independent of the
transform hooks); (ii) each transform hook receives the current chunk and
may replace it, leave it unchanged, or suppress it; (iii) suppression
short-circuits: once a prefix of the chain has suppressed the chunk, the
remaining hooks are never invoked and nothing is forwarded. -/
theorem stream_dual_feed (thooks : List StreamTransformHook)
    (ohooks : List StreamHook) (chunk : List Char)
    (out : Option (List Char)) (tr : List (List Char))
    (ht : (applyTransforms true thooks chunk).result = Except.ok out)
    (ho : executeStream true ohooks chunk = Except.ok tr) :
    streamStep true thooks ohooks chunk = Except.ok (out, tr) ∧
    tr = List.replicate ohooks.length chunk ∧
    (∀ (h : StreamTransformHook) (hs : List StreamTransformHook) (c d : List Char),
      (h c = TransformOut.replace d →
        applyTransforms true (h :: hs) c =
          { result := (applyTransforms true hs d).result,
            calls := c :: (applyTransforms true hs d).calls }) ∧
      (h c = TransformOut.pass →
        applyTransforms true (h :: hs) c =
          { result := (applyTransforms true hs c).result,
            calls := c :: (applyTransforms true hs c).calls }) ∧
      (h c = TransformOut.suppress →
        applyTransforms true (h :: hs) c = { result := Except.ok none, calls := [c] })) ∧
    (∀ (pre post : List StreamTransformHook) (c : List Char),
      (applyTransforms true pre c).result = Except.ok none →
      applyTransforms true (pre ++ post) c = applyTransforms true pre c) := by
  refine ⟨?_, ?_, ?_, ?_⟩
  · rw [streamStep, ht, ho]
  · exact executeStreamLoop_trace ohooks chunk [] tr ho
  · intro h hs c d
    refine ⟨?_, ?_, ?_⟩
    · intro hh
      show applyTransformsLoop (h :: hs) (some c) [] = _
      simp only [applyTransformsLoop, hh]
      rw [applyTransformsLoop_accum hs (some d) ([] ++ [c])]
      simp [applyTransforms]
    · intro hh
      show applyTransformsLoop (h :: hs) (some c) [] = _
      simp only [applyTransformsLoop, hh]
      rw [applyTransformsLoop_accum hs (some c) ([] ++ [c])]
      simp [applyTransforms]
    · intro hh
      show applyTransformsLoop (h :: hs) (some c) [] = _
      simp only [applyTransformsLoop, hh]
      rw [applyTransformsLoop_none]
      simp
  · intro pre post c hnone
    have hnone' : (applyTransformsLoop pre (some c) []).result = Except.ok none := hnone
    show applyTransformsLoop (pre ++ post) (some c) [] = applyTransformsLoop pre (some c) []
    rw [applyTransformsLoop_append_ok pre post (some c) [] none hnone',
      applyTransformsLoop_none]
    cases hpre : applyTransformsLoop pre (some c) [] with
    | mk res calls =>
      rw [hpre] at hnone'
      simp at hnone'
      rw [hnone']

/-- Witness for C5: two transform hooks (append `!`, then pass through) and
two observers on a concrete chunk. -/
theorem stream_dual_feed_witness :
    (applyTransforms true [wReplaceHook, wPassHook] wChunk).result
        = Except.ok (some ("hello!".data)) ∧
    executeStream true [wObserver, wObserver] wChunk = Except.ok [wChunk, wChunk] ∧
    streamStep true [wReplaceHook, wPassHook] [wObserver, wObserver] wChunk =
      Except.ok (some ("hello!".data), [wChunk, wChunk]) :=
  ⟨rfl, rfl,
    (stream_dual_feed [wReplaceHook, wPassHook] [wObserver, wObserver] wChunk
      (some ("hello!".data)) [wChunk, wChunk] rfl rfl).1⟩

/-- C7 counterexample: a throwing stream hook DOES stop byte forwarding —
with a raising transform hook (first conjunct) or a raising observer hook
(second conjunct) the per-chunk stream step throws and nothing is
forwarded, contradicting the claim that a hook exception is caught and
never halts forwarding. -/
theorem stream_hook_exception_stops_forwarding_cex :
    streamStep true [wRaiseHook, wReplaceHook] [wObserver] wChunk = Except.error () ∧
    streamStep true [wReplaceHook] [wObserverRaise, wObserver] wChunk = Except.error () :=
  ⟨rfl, rfl⟩

/-- C7 (amended): an exception thrown by a stream hook is NOT caught — it
propagates.  A transform hook that throws receives the current chunk, ends
the chain right there (the remaining transform hooks are never invoked),
and makes the stream step throw, so the chunk is not forwarded; likewise
any throwing observer hook makes the stream step throw regardless of what
the transform chain produced. -/
theorem stream_hook_error_propagates (pre post : List StreamTransformHook)
    (hk : StreamTransformHook) (ohooks : List StreamHook)
    (thooks : List StreamTransformHook) (chunk c : List Char)
    (hpre : (applyTransforms true pre chunk).result = Except.ok (some c))
    (hraise : hk c = TransformOut.raise) :
    (applyTransforms true (pre ++ hk :: post) chunk).result = Except.error () ∧
    (applyTransforms true (pre ++ hk :: post) chunk).calls
        = (applyTransforms true pre chunk).calls ++ [c] ∧
    streamStep true (pre ++ hk :: post) ohooks chunk = Except.error () ∧
    ((∃ ohk ∈ ohooks, ohk chunk = ObserverOut.raise) →
      streamStep true thooks ohooks chunk = Except.error ()) := by
  have hsplit :
      applyTransformsLoop (pre ++ hk :: post) (some chunk) [] =
        applyTransformsLoop (hk :: post) (some c)
          (applyTransformsLoop pre (some chunk) []).calls :=
    applyTransformsLoop_append_ok pre (hk :: post) (some chunk) [] (some c) hpre
  have hstep :
      applyTransformsLoop (hk :: post) (some c)
          (applyTransformsLoop pre (some chunk) []).calls =
        { result := Except.error (),
          calls := (applyTransformsLoop pre (some chunk) []).calls ++ [c] } := by
    simp [applyTransformsLoop, hraise]
  have hmain : applyTransforms true (pre ++ hk :: post) chunk =
      { result := Except.error (),
        calls := (applyTransforms true pre chunk).calls ++ [c] } := by
    show applyTransformsLoop (pre ++ hk :: post) (some chunk) [] = _
    rw [hsplit, hstep]
    rfl
  refine ⟨by rw [hmain], by rw [hmain], ?_, ?_⟩
  · rw [streamStep, hmain]
  · intro hex
    rw [streamStep]
    have hobs : executeStream true ohooks chunk = Except.error () :=
      executeStreamLoop_raise ohooks chunk [] hex
    cases hres : (applyTransforms true thooks chunk).result with
    | error e => rfl
    | ok r => rw [hobs]

/-- Witness for C7 (amended): concrete hooks — one successful replace hook,
then a throwing hook, with a pass hook after it that is never reached; and
a throwing observer. -/
theorem stream_hook_error_propagates_witness :
    (applyTransforms true [wReplaceHook] wChunk).result
        = Except.ok (some ("hello!".data)) ∧
    wRaiseHook ("hello!".data) = TransformOut.raise ∧
    (applyTransforms true [wReplaceHook, wRaiseHook, wPassHook] wChunk).result
        = Except.error () ∧
    streamStep true [wReplaceHook, wRaiseHook, wPassHook] [wObserver] wChunk
        = Except.error () :=
  ⟨rfl, rfl,
    (stream_hook_error_propagates [wReplaceHook] [wPassHook] wRaiseHook [wObserver]
      [] wChunk ("hello!".data) rfl rfl).1,
    (stream_hook_error_propagates [wReplaceHook] [wPassHook] wRaiseHook [wObserver]
      [] wChunk ("hello!".data) rfl rfl).2.2.1⟩

/-- C10: with no context (`createContext` never called) every pipeline entry
point is a no-op: `executeLifecycle` runs zero hooks, `executeStream`
invokes zero observers, `applyTransforms` returns the chunk unchanged with
zero hook invocations — so the whole stream step forwards the chunk
unmodified, silently bypassing all registered transform hooks. -/
theorem no_context_pipeline_noop (lhooks : List LifecycleOut)
    (thooks : List StreamTransformHook) (ohooks : List StreamHook)
    (chunk : List Char) :
    executeLifecycle false lhooks = Except.ok 0 ∧
    executeStream false ohooks chunk = Except.ok [] ∧
    applyTransforms false thooks chunk
        = { result := Except.ok (some chunk), calls := [] } ∧
    streamStep false thooks ohooks chunk = Except.ok (some chunk, []) :=
  ⟨rfl, rfl, rfl, rfl⟩

end Hooks

namespace Runner

open Hooks

lemma executeLifecycleLoop_ok {hs : List LifecycleOut}
    (h : lifecycleOk hs = true) : ∀ n, executeLifecycleLoop hs n = Except.ok (n + hs.length) := by
  induction hs with
  | nil => intro n; simp [executeLifecycleLoop]
  | cons x t ih =>
    intro n
    cases x with
    | done =>
      simp only [lifecycleOk, List.all_cons, Bool.and_eq_true] at h
      simp only [executeLifecycleLoop]
      rw [ih (by simp [lifecycleOk, h.2]) (n + 1)]
      simp only [List.length_cons]
      congr 1
      omega
    | raise => simp [lifecycleOk] at h

/-- If no hook at a milestone throws, `executeLifecycle` succeeds. -/
lemma lifecycleOk_exec {hs : List LifecycleOut} (h : lifecycleOk hs = true) :
    executeLifecycle true hs = Except.ok hs.length := by
  show executeLifecycleLoop hs 0 = Except.ok hs.length
  simpa using executeLifecycleLoop_ok h 0

/-- C4: exit-code mapping of the close handler.  When the child closes (and
the stop-milestone hooks do not throw, so the close handler reaches
`resolve`), the run resolves with the computed exit code; the computation
follows the 128+signal convention — SIGINT→130, SIGTERM→143, SIGHUP→129,
any other signal→128 — and otherwise the child's own code, or 0 when the
child reported none. -/
theorem run_exit_code_convention (hooks : RunHooks) (code : Option Int)
    (signal : Option String)
    (h1 : lifecycleOk hooks.beforeStart = true)
    (h2 : lifecycleOk hooks.beforeStop = true)
    (h3 : lifecycleOk hooks.afterStop = true) :
    (runModel hooks (SpawnOutcome.closes code signal)).1
        = RunOutcome.resolved (computeExitCode code signal) signal ∧
    computeExitCode code (some "SIGINT") = 130 ∧
    computeExitCode code (some "SIGTERM") = 143 ∧
    computeExitCode code (some "SIGHUP") = 129 ∧
    (∀ s : String, s ≠ "SIGINT" → s ≠ "SIGTERM" → s ≠ "SIGHUP" →
      computeExitCode code (some s) = 128) ∧
    computeExitCode code none = code.getD 0 := by
  refine ⟨?_, rfl, rfl, rfl, ?_, rfl⟩
  · have e1 := lifecycleOk_exec h1
    have e2 := lifecycleOk_exec h2
    have e3 := lifecycleOk_exec h3
    simp [runModel, e1, e2, e3]
  · intro s hs1 hs2 hs3
    have b1 : (s == "SIGINT") = false := beq_eq_false_iff_ne.mpr hs1
    have b2 : (s == "SIGTERM") = false := beq_eq_false_iff_ne.mpr hs2
    have b3 : (s == "SIGHUP") = false := beq_eq_false_iff_ne.mpr hs3
    simp [computeExitCode, signalCodes, List.lookup, b1, b2, b3]

/-- Witness for C4: all hooks succeed, child killed by SIGTERM — the run
resolves with exit code 143. -/
theorem run_exit_code_convention_witness :
    lifecycleOk wOkHooks.beforeStart = true ∧
    lifecycleOk wOkHooks.beforeStop = true ∧
    lifecycleOk wOkHooks.afterStop = true ∧
    (runModel wOkHooks (SpawnOutcome.closes none (some "SIGTERM"))).1
        = RunOutcome.resolved 143 (some "SIGTERM") :=
  ⟨rfl, rfl, rfl,
    (run_exit_code_convention wOkHooks none (some "SIGTERM") rfl rfl rfl).1⟩

/-- C6 counterexample: with a single throwing before-stop hook (all other
hooks fine) and a child that closes normally, the run does NOT continue to
resolve normally — the uncaught exception inside the async close handler
means neither `resolve` nor `reject` is ever called. -/
theorem lifecycle_error_asymmetry_cex :
    (runModel cexBeforeStopHooks (SpawnOutcome.closes (some 0) none)).1
      = RunOutcome.neverSettles := by rfl

/-- C6 (amended): lifecycle hook errors are handled asymmetrically, but not
as claimed: a before-start failure propagates and aborts the run before the
child is spawned; an after-start failure is caught and logged and the run
still resolves; a before-stop or after-stop failure is NOT caught — it
escapes the async child-event handler, so the run promise never settles. -/
theorem lifecycle_error_asymmetry (hooks : RunHooks) (child : SpawnOutcome)
    (code : Option Int) (signal : Option String) :
    (executeLifecycle true hooks.beforeStart = Except.error () →
      runModel hooks child =
        (RunOutcome.abortedBeforeSpawn,
         [RunAction.firedMilestone Milestone.beforeStart]) ∧
      RunAction.spawned ∉ (runModel hooks child).2) ∧
    (lifecycleOk hooks.beforeStart = true →
      executeLifecycle true hooks.afterStart = Except.error () →
      lifecycleOk hooks.beforeStop = true →
      lifecycleOk hooks.afterStop = true →
      (runModel hooks (SpawnOutcome.closes code signal)).1
          = RunOutcome.resolved (computeExitCode code signal) signal ∧
      RunAction.loggedHookError Milestone.afterStart
          ∈ (runModel hooks (SpawnOutcome.closes code signal)).2) ∧
    (lifecycleOk hooks.beforeStart = true →
      executeLifecycle true hooks.beforeStop = Except.error () →
      (runModel hooks (SpawnOutcome.closes code signal)).1
          = RunOutcome.neverSettles) ∧
    (lifecycleOk hooks.beforeStart = true →
      lifecycleOk hooks.beforeStop = true →
      executeLifecycle true hooks.afterStop = Except.error () →
      (runModel hooks (SpawnOutcome.closes code signal)).1
          = RunOutcome.neverSettles) := by
  refine ⟨?_, ?_, ?_, ?_⟩
  · intro hbs
    constructor
    · simp [runModel, hbs]
    · simp [runModel, hbs]
  · intro hbs has hbstop hastop
    have e1 := lifecycleOk_exec hbs
    have e2 := lifecycleOk_exec hbstop
    have e3 := lifecycleOk_exec hastop
    constructor
    · simp [runModel, e1, e2, e3]
    · simp [runModel, e1, e2, e3, has]
  · intro hbs hbstop
    have e1 := lifecycleOk_exec hbs
    simp [runModel, e1, hbstop]
  · intro hbs hbstop hastop
    have e1 := lifecycleOk_exec hbs
    have e2 := lifecycleOk_exec hbstop
    simp [runModel, e1, e2, hastop]

/-- Witness for C6 (amended), exercising the three configurations: a
failing before-start hook aborts before spawn; a failing after-start hook
is logged and the run resolves; a failing after-stop hook leaves the run
unsettled. -/
theorem lifecycle_error_asymmetry_witness :
    executeLifecycle true wBeforeStartFailHooks.beforeStart = Except.error () ∧
    runModel wBeforeStartFailHooks (SpawnOutcome.closes (some 0) none)
      = (RunOutcome.abortedBeforeSpawn,
         [RunAction.firedMilestone Milestone.beforeStart]) ∧
    (runModel wAfterStartFailHooks (SpawnOutcome.closes (some 7) none)).1
      = RunOutcome.resolved (computeExitCode (some 7) none) none :=
  ⟨rfl,
    ((lifecycle_error_asymmetry wBeforeStartFailHooks
        (SpawnOutcome.closes (some 0) none) (some 0) none).1 rfl).1,
    ((lifecycle_error_asymmetry wAfterStartFailHooks
        (SpawnOutcome.closes (some 7) none) (some 7) none).2.1 rfl rfl rfl rfl).1⟩

/-- C8: the spawn-failure path.  If the child cannot be spawned, the run
never resolves with a numeric exit code, and (when the after-stop hooks do
not throw) it fires after-stop and then rejects with the distinct spawn
failure, with the signal handlers removed before the rejection — the action
trace ends `... removedHandlers, firedMilestone afterStop, rejectedRun`. -/
theorem spawn_failure_path (hooks : RunHooks)
    (h1 : lifecycleOk hooks.beforeStart = true) :
    (∀ (e : Int) (s : Option String),
      (runModel hooks SpawnOutcome.fail).1 ≠ RunOutcome.resolved e s) ∧
    (lifecycleOk hooks.afterStart = true →
      lifecycleOk hooks.afterStop = true →
      runModel hooks SpawnOutcome.fail =
        (RunOutcome.rejectedSpawnFailure,
         [RunAction.firedMilestone Milestone.beforeStart, RunAction.spawned,
          RunAction.installedHandlers, RunAction.firedMilestone Milestone.afterStart,
          RunAction.removedHandlers, RunAction.firedMilestone Milestone.afterStop,
          RunAction.rejectedRun])) := by
  have e1 := lifecycleOk_exec h1
  constructor
  · intro e s
    cases hA : executeLifecycle true hooks.afterStop with
    | error u => simp [runModel, e1, hA]
    | ok n => simp [runModel, e1, hA]
  · intro has hastop
    have e2 := lifecycleOk_exec has
    have e3 := lifecycleOk_exec hastop
    simp [runModel, e1, e2, e3]

/-- Witness for C8: all hooks fine, spawn fails — the run rejects with the
expected action trace. -/
theorem spawn_failure_path_witness :
    lifecycleOk wOkHooks.beforeStart = true ∧
    runModel wOkHooks SpawnOutcome.fail =
      (RunOutcome.rejectedSpawnFailure,
       [RunAction.firedMilestone Milestone.beforeStart, RunAction.spawned,
        RunAction.installedHandlers, RunAction.firedMilestone Milestone.afterStart,
        RunAction.removedHandlers, RunAction.firedMilestone Milestone.afterStop,
        RunAction.rejectedRun]) :=
  ⟨rfl, (spawn_failure_path wOkHooks rfl).2 rfl rfl⟩

end Runner

namespace Telemetry

/-- Recording a batch of events appends them to the live buffer in order. -/
lemma foldl_record (later : List TEvent) :
    ∀ st : TelemetryState,
      later.foldl record st = { buffer := st.buffer ++ later, log := st.log } := by
  induction later with
  | nil => intro st; simp
  | cons e t ih =>
    intro st
    rw [List.foldl_cons, ih]
    simp [record]

/-- C3: durability under append failure.  With the cloud not linked, if the
durable append fails during a flush, (i) the collector surfaces the error
and its buffer afterwards is exactly the pre-flush snapshot, in original
order, followed by whatever was recorded during the attempt, with the log
untouched; (ii) after recording more events, the next successful flush
appends every one of those events to the durable log exactly once, in
order, and leaves only the events recorded during the retry in the buffer —
nothing lost, nothing duplicated. -/
theorem flush_failure_merge_back (st : TelemetryState)
    (during later during2 : List TEvent) (hne : st.buffer ≠ []) :
    asyncFlush false st during false =
      (Except.error (), { buffer := st.buffer ++ during, log := st.log }) ∧
    (later.foldl record (asyncFlush false st during false).2).buffer
        = st.buffer ++ during ++ later ∧
    asyncFlush false (later.foldl record (asyncFlush false st during false).2) during2 true =
      (Except.ok (st.buffer ++ during ++ later).length,
       { buffer := during2, log := st.log ++ (st.buffer ++ during ++ later) }) := by
  obtain ⟨buf, log⟩ := st
  cases buf with
  | nil => exact absurd rfl hne
  | cons b bt =>
    refine ⟨rfl, ?_, ?_⟩
    · rw [foldl_record]
      rfl
    · rw [foldl_record]
      rfl

/-- Witness for C3: two buffered events, one recorded during the failed
attempt, one between the attempts, none during the retry. -/
theorem flush_failure_merge_back_witness :
    wState.buffer ≠ [] ∧
    asyncFlush false wState [wEvent 3] false =
      (Except.error (), { buffer := wState.buffer ++ [wEvent 3], log := wState.log }) ∧
    asyncFlush false ([wEvent 4].foldl record (asyncFlush false wState [wEvent 3] false).2) [] true =
      (Except.ok (wState.buffer ++ [wEvent 3] ++ [wEvent 4]).length,
       { buffer := [],
         log := wState.log ++ (wState.buffer ++ [wEvent 3] ++ [wEvent 4]) }) :=
  ⟨by decide,
    (flush_failure_merge_back wState [wEvent 3] [wEvent 4] [] (by decide)).1,
    (flush_failure_merge_back wState [wEvent 3] [wEvent 4] [] (by decide)).2.2⟩

/-- C9 counterexample: `readEvents` does NOT survive a malformed trailing
line.  With a parser accepting single digits, the content `1` alone reads
as `[1]`, but the content `1\nx` (well-formed first line, malformed second)
makes the whole read throw — the prior well-formed event is not returned,
contradicting the claim. -/
theorem readEvents_malformed_line_cex :
    readEvents wParse ("1\nx".data) none = Except.error () ∧
    readEvents wParse ("1".data) none = Except.ok [1] :=
  ⟨rfl, rfl⟩

/-- C9 (amended): `readEvents` parses the durable log line by line; any
malformed line makes the entire read fail (no events are returned, the
error propagates), and when all lines parse, a positive `limit` returns the
most recent `limit` events (a suffix of length `min limit N`); no limit (or
the falsy limit 0) returns all events. -/
theorem readEvents_line_parsing {α : Type} (parse : List Char → Option α)
    (content : List Char) (limit : Nat) (hpos : 0 < limit) :
    (parseAllLines parse (logLines content) = none →
      readEvents parse content none = Except.error () ∧
      readEvents parse content (some limit) = Except.error ()) ∧
    (∀ events,
      parseAllLines parse (logLines content) = some events →
      readEvents parse content none = Except.ok events ∧
      readEvents parse content (some limit)
          = Except.ok (events.drop (events.length - limit)) ∧
      (events.drop (events.length - limit)) <:+ events ∧
      (events.drop (events.length - limit)).length = min limit events.length) := by
  constructor
  · intro hnone
    constructor <;> simp [readEvents, hnone]
  · intro events hsome
    refine ⟨?_, ?_, ?_, ?_⟩
    · simp [readEvents, hsome]
    · simp [readEvents, hsome, Nat.pos_iff_ne_zero.mp hpos]
    · exact List.drop_suffix _ _
    · rw [List.length_drop]; omega

/-- Witness for C9 (amended): a three-line log read with limit 2 returns
the two most recent events. -/
theorem readEvents_line_parsing_witness :
    (0 : Nat) < 2 ∧
    parseAllLines wParse (logLines ("1\n2\n3".data))
        = some [1, 2, 3] ∧
    readEvents wParse ("1\n2\n3".data) (some 2) = Except.ok [2, 3] :=
  ⟨by decide, rfl,
    ((readEvents_line_parsing wParse ("1\n2\n3".data) 2 (by decide)).2 [1, 2, 3] rfl).2.1⟩

end Telemetry

end Gluon
